import Mathlib

/-!
Verification development for the Dust Racing 2D / MiniCore sources:
the narrow-phase contact resolver (`MCContactResolverImpl`), the impulse
solver, the track loader (`TrackLoader`) and the off-track detector
(`OffTrackDetector`).

The contact-resolver and solver implementations are not present in the
sources (only the class declaration in `mccontactresolverimpl.hh` is), so
those operations are modelled from the specification text; each such
definition carries a doc comment starting with `Modelled from the spec:`.
The track loader and the off-track detector are translated directly from
`trackloader.cpp` and `offtrackdetector.cpp`.
-/

/-- A 2D vector with real coordinates (models `MCVector2dF`; the C++ float
components are idealised as reals). -/
@[ext]
structure Vec2 where
  x : ℝ
  y : ℝ

instance : Add Vec2 :=
  ⟨fun a b => ⟨a.x + b.x, a.y + b.y⟩⟩

instance : Sub Vec2 :=
  ⟨fun a b => ⟨a.x - b.x, a.y - b.y⟩⟩

instance : Neg Vec2 :=
  ⟨fun a => ⟨-a.x, -a.y⟩⟩

instance : SMul ℝ Vec2 :=
  ⟨fun c a => ⟨c * a.x, c * a.y⟩⟩

instance : Zero Vec2 :=
  ⟨⟨0, 0⟩⟩

/-- Dot product of two 2D vectors. -/
def dotV (a b : Vec2) : ℝ := a.x * b.x + a.y * b.y

/-- Euclidean length of a 2D vector. -/
noncomputable def vnorm (v : Vec2) : ℝ := Real.sqrt (v.x ^ 2 + v.y ^ 2)

theorem vnorm_nonneg (v : Vec2) : 0 ≤ vnorm v := Real.sqrt_nonneg _

theorem vnorm_eq_zero_iff (v : Vec2) : vnorm v = 0 ↔ v = 0 := by
  unfold vnorm
  rw [show (0 : Vec2) = (⟨0, 0⟩ : Vec2) from rfl]
  constructor
  · intro h
    have hx : v.x ^ 2 + v.y ^ 2 = 0 := by
      have hnn : 0 ≤ v.x ^ 2 + v.y ^ 2 := by positivity
      have := Real.sqrt_eq_zero hnn |>.mp h
      exact this
    have hx0 : v.x = 0 := by nlinarith [sq_nonneg v.x, sq_nonneg v.y]
    have hy0 : v.y = 0 := by nlinarith [sq_nonneg v.x, sq_nonneg v.y]
    ext <;> simp [hx0, hy0]
  · intro h
    rw [h]
    simp [Real.sqrt_eq_zero']

theorem vnorm_neg (v : Vec2) : vnorm (-v) = vnorm v := by
  unfold vnorm
  show Real.sqrt ((-v.x) ^ 2 + (-v.y) ^ 2) = _
  ring_nf

theorem vnorm_smul_self (v : Vec2) (h : vnorm v ≠ 0) :
    vnorm ((1 / vnorm v) • v) = 1 := by
  have hpos : 0 < vnorm v := lt_of_le_of_ne (vnorm_nonneg v) (Ne.symm h)
  unfold vnorm at *
  show Real.sqrt ((1 / Real.sqrt (v.x ^ 2 + v.y ^ 2) * v.x) ^ 2 +
      (1 / Real.sqrt (v.x ^ 2 + v.y ^ 2) * v.y) ^ 2) = 1
  have hs : 0 ≤ v.x ^ 2 + v.y ^ 2 := by positivity
  have hsq : Real.sqrt (v.x ^ 2 + v.y ^ 2) ^ 2 = v.x ^ 2 + v.y ^ 2 :=
    Real.sq_sqrt hs
  have hne : v.x ^ 2 + v.y ^ 2 ≠ 0 := by
    intro h0
    apply h
    rw [h0, Real.sqrt_zero]
  have : (1 / Real.sqrt (v.x ^ 2 + v.y ^ 2) * v.x) ^ 2 +
      (1 / Real.sqrt (v.x ^ 2 + v.y ^ 2) * v.y) ^ 2 = 1 := by
    field_simp
  rw [this, Real.sqrt_one]

/-! ## Track loader (from `trackloader.cpp`) -/

/-- Track metadata (the fields of `TrackData` used by the loader:
the track index from the `.trk` file and the locked flag). -/
structure TrackData where
  index : Nat
  isLocked : Bool
deriving DecidableEq

/-- A loaded track wrapping its `TrackData` (models `Track`). -/
structure Track where
  trackData : TrackData
deriving DecidableEq

/-- The track loader's state: its list of loaded tracks `m_tracks`. -/
structure TrackLoader where
  m_tracks : List Track
deriving DecidableEq

/-- `TrackLoader::tracks()`: the number of loaded tracks. -/
def TrackLoader.tracks (tl : TrackLoader) : Nat := tl.m_tracks.length

/-- `TrackLoader::track(index)`: returns the track at `index` when
`index < tracks()`, otherwise `nullptr` (modelled as `none`). -/
def TrackLoader.track (tl : TrackLoader) (index : Nat) : Option Track :=
  if h : index < tl.tracks then some (tl.m_tracks.get ⟨index, h⟩) else none

/-- Modelled from the spec: `Settings::loadTrackUnlockStatus` is not among
the sources (only its call site in `TrackLoader::setLockedTracks` is).  It
reads the stored unlock status of a track from the settings store; a track
whose status is absent counts as not unlocked.  The store is modelled as a
partial map from track index to the stored flag, with absent mapping to
`false`. -/
def loadTrackUnlockStatus (settings : Nat → Option Bool) (t : Track) : Bool :=
  (settings t.trackData.index).getD false

/-- `TrackData::setIsLocked` applied through `Track`. -/
def Track.setIsLocked (t : Track) (b : Bool) : Track :=
  { t with trackData := { t.trackData with isLocked := b } }

/-- `TrackLoader::setLockedTracks()`: locks a track exactly when its stored
unlock status is not set and its index is positive (the first track is
never locked); otherwise clears the locked flag. -/
def TrackLoader.setLockedTracks (settings : Nat → Option Bool)
    (tl : TrackLoader) : TrackLoader :=
  { tl with
    m_tracks := tl.m_tracks.map fun track =>
      if loadTrackUnlockStatus settings track = false ∧ track.trackData.index > 0 then
        track.setIsLocked true
      else
        track.setIsLocked false }

/-! ## Off-track detector (from `offtrackdetector.cpp`) -/

/-- A 2D vector with rational coordinates (models `MCVector2dF` in the
detector; fields named after the `i()`/`j()` accessors).  The C++ float
components are idealised as rationals, which keeps every comparison in
`isOffTrack` exact and decidable. -/
structure Vec2Q where
  i : ℚ
  j : ℚ
deriving DecidableEq

instance : Sub Vec2Q :=
  ⟨fun a b => ⟨a.i - b.i, a.j - b.j⟩⟩

/-- Tile types, from `TrackLoader::tileTypeEnumFromString`. -/
inductive TileType where
  | TT_NONE
  | TT_CORNER_90
  | TT_CORNER_45_LEFT
  | TT_CORNER_45_RIGHT
  | TT_STRAIGHT
  | TT_STRAIGHT_45_MALE
  | TT_STRAIGHT_45_FEMALE
  | TT_GRASS
  | TT_SAND
  | TT_SAND_GRASS_STRAIGHT
  | TT_SAND_GRASS_STRAIGHT_45_FEMALE
  | TT_SAND_GRASS_CORNER
  | TT_SAND_GRASS_CORNER_2
  | TT_FINISH
deriving DecidableEq

/-- The fields of `TrackTile` read by `OffTrackDetector::isOffTrack`:
whether the tile has asphalt, its type, its rotation in degrees and its
centre location (`location().x()`/`y()` modelled as `.i`/`.j`). -/
structure TrackTile where
  hasAsphalt : Bool
  tileTypeEnum : TileType
  rotation : Int
  location : Vec2Q
deriving DecidableEq

/-- The off-track detector's tile limits, set in its constructor from the
tile dimensions (`m_tileWLimit = width/2 - width/10`, likewise for the
height). -/
structure OffTrackDetector where
  m_tileWLimit : ℚ
  m_tileHLimit : ℚ
deriving DecidableEq

/-- `OffTrackDetector::isOffTrack(tire, tile)`, translated branch by branch
from `offtrackdetector.cpp`.  `MCMathUtil::rotatedVector` is not among the
sources, so it is taken as a parameter `rotatedVector`; the claims proved
below do not depend on it. -/
def OffTrackDetector.isOffTrack (rotatedVector : Vec2Q → Int → Vec2Q)
    (d : OffTrackDetector) (tire : Vec2Q) (tile : TrackTile) : Bool :=
  if !tile.hasAsphalt then
    true
  else if tile.tileTypeEnum = TileType.TT_STRAIGHT ∨
      tile.tileTypeEnum = TileType.TT_FINISH then
    if (tile.rotation + 90) % 180 = 0 then
      decide (tire.j > tile.location.j + d.m_tileHLimit ∨
        tire.j < tile.location.j - d.m_tileHLimit)
    else if tile.rotation % 180 = 0 then
      decide (tire.i > tile.location.i + d.m_tileWLimit ∨
        tire.i < tile.location.i - d.m_tileWLimit)
    else
      false
  else if tile.tileTypeEnum = TileType.TT_STRAIGHT_45_MALE then
    let diff := tire - tile.location
    let rotatedDiff := rotatedVector diff (tile.rotation - 45)
    decide (rotatedDiff.j > d.m_tileHLimit ∨ rotatedDiff.j < -d.m_tileHLimit)
  else if tile.tileTypeEnum = TileType.TT_STRAIGHT_45_FEMALE then
    let diff := tire - tile.location
    let rotatedDiff := rotatedVector diff (360 - tile.rotation - 45)
    decide (rotatedDiff.j < d.m_tileHLimit)
  else
    false

/-! ## Narrow-phase contact resolver

The implementations behind `mccontactresolverimpl.hh` are not among the
sources (only the class declaration is), so `processCircleCircle`,
`processRectRect`, `processRectCircle`, the dispatch and the impulse
solver are modelled from the specification text. -/

/-- Circle shape: centre and radius (models `MCCircleShape`). -/
structure MCCircleShape where
  center : Vec2
  radius : ℝ

/-- Rectangle shape: centre, half extents and rotation in radians
(models `MCRectShape`). -/
@[ext]
structure MCRectShape where
  center : Vec2
  hw : ℝ
  hh : ℝ
  rot : ℝ

/-- A detected contact: world-space point, unit normal pointing from
object1 toward object2, and non-negative penetration depth. -/
structure Contact where
  point : Vec2
  normal : Vec2
  depth : ℝ

/-- Modelled from the spec: `processCircleCircle(object1, object2)`
compares the centre distance with the sum of the radii; on overlap the
normal is the normalised centre-to-centre vector, the penetration is the
sum of radii minus the distance, and the contact point is the midpoint of
the two surface points along the centre line.  Distance at or above the
sum of radii yields no contact; exactly coincident centres take the
deterministic fixed-axis fallback normal `(1, 0)`. -/
noncomputable def processCircleCircle (o1 o2 : MCCircleShape) : Option Contact :=
  let d := o2.center - o1.center
  let dist := vnorm d
  if o1.radius + o2.radius ≤ dist then
    none
  else
    let n : Vec2 := if dist = 0 then ⟨1, 0⟩ else (1 / dist) • d
    some { point := (1 / 2 : ℝ) • ((o1.center + o1.radius • n) + (o2.center - o2.radius • n)),
           normal := n,
           depth := o1.radius + o2.radius - dist }

/-- First local axis of a rectangle (its rotated x-axis). -/
noncomputable def rectAxis1 (r : MCRectShape) : Vec2 :=
  ⟨Real.cos r.rot, Real.sin r.rot⟩

/-- Second local axis of a rectangle (its rotated y-axis). -/
noncomputable def rectAxis2 (r : MCRectShape) : Vec2 :=
  ⟨-Real.sin r.rot, Real.cos r.rot⟩

/-- Projection radius of a rectangle onto a separating axis. -/
noncomputable def projR (r : MCRectShape) (a : Vec2) : ℝ :=
  r.hw * |dotV (rectAxis1 r) a| + r.hh * |dotV (rectAxis2 r) a|

/-- Overlap depth of two rectangles along one candidate axis. -/
noncomputable def rrDepth (o1 o2 : MCRectShape) (a : Vec2) : ℝ :=
  projR o1 a + projR o2 a - |dotV (o2.center - o1.center) a|

/-- Lexicographic key on a rectangle's fields, used to order the candidate
axes independently of argument order (the spec requires the pair tests to
be deterministic and argument-order symmetric). -/
def rectKey (r : MCRectShape) : Lex (ℝ × Lex (ℝ × Lex (ℝ × Lex (ℝ × ℝ)))) :=
  toLex (r.center.x, toLex (r.center.y, toLex (r.hw, toLex (r.hh, r.rot))))

theorem rectKey_inj {r1 r2 : MCRectShape} (h : rectKey r1 = rectKey r2) :
    r1 = r2 := by
  simp only [rectKey, toLex_inj, Prod.mk.injEq] at h
  obtain ⟨h1, h2, h3, h4, h5⟩ := h
  ext <;> assumption

/-- The two rectangles ordered by `rectKey`, independently of the order in
which they were passed. -/
noncomputable def canonicalPair (o1 o2 : MCRectShape) :
    MCRectShape × MCRectShape :=
  if rectKey o2 < rectKey o1 then (o2, o1) else (o1, o2)

theorem canonicalPair_comm (o1 o2 : MCRectShape) :
    canonicalPair o1 o2 = canonicalPair o2 o1 := by
  unfold canonicalPair
  rcases lt_trichotomy (rectKey o1) (rectKey o2) with h | h | h
  · rw [if_neg (not_lt_of_gt h), if_pos h]
  · have : o1 = o2 := rectKey_inj h
    subst this
    rfl
  · rw [if_pos h, if_neg (not_lt_of_gt h)]

/-- The four candidate separating axes of a rectangle pair, listed in the
canonical order. -/
noncomputable def rrAxes (o1 o2 : MCRectShape) :
    Vec2 × Vec2 × Vec2 × Vec2 :=
  let pq := canonicalPair o1 o2
  (rectAxis1 pq.1, rectAxis2 pq.1, rectAxis1 pq.2, rectAxis2 pq.2)

/-- The first of four axes minimising `f`. -/
noncomputable def bestAxis (f : Vec2 → ℝ) (a b c d : Vec2) : Vec2 :=
  if f a ≤ f b ∧ f a ≤ f c ∧ f a ≤ f d then a
  else if f b ≤ f c ∧ f b ≤ f d then b
  else if f c ≤ f d then c
  else d

/-- Minimum overlap depth of a rectangle pair over its four axes. -/
noncomputable def rrPen (o1 o2 : MCRectShape) : ℝ :=
  let A := rrAxes o1 o2
  min (min (rrDepth o1 o2 A.1) (rrDepth o1 o2 A.2.1))
    (min (rrDepth o1 o2 A.2.2.1) (rrDepth o1 o2 A.2.2.2))

/-- The minimum-translation-vector axis of a rectangle pair. -/
noncomputable def rrAxis (o1 o2 : MCRectShape) : Vec2 :=
  let A := rrAxes o1 o2
  bestAxis (rrDepth o1 o2) A.1 A.2.1 A.2.2.1 A.2.2.2

/-- Orients a separating axis so that the normal points from object1
toward object2: by the sign of the projection of the centre difference
`d`, falling back to the lexicographic sign of `d` when the projection is
zero, and to the deterministic fixed-axis normal `(1, 0)` when the centres
exactly coincide (the spec's degenerate-geometry fallback). -/
noncomputable def orient (d a : Vec2) : Vec2 :=
  if 0 < dotV d a then a
  else if dotV d a < 0 then -a
  else if d.x = 0 ∧ d.y = 0 then ⟨1, 0⟩
  else if 0 < d.x ∨ (d.x = 0 ∧ 0 < d.y) then a
  else -a

/-- Modelled from the spec: `processRectRect(object1, object2)` runs the
separating-axis test over each rectangle's two local axes; if every axis
projection overlaps it reports a contact along the minimum-translation
axis with the minimum overlap as depth, otherwise no contact.  The
contact point is a deterministic stand-in (the midpoint of the centres;
the claims under verification do not constrain it). -/
noncomputable def processRectRect (o1 o2 : MCRectShape) : Option Contact :=
  if 0 < rrPen o1 o2 then
    some { point := (1 / 2 : ℝ) • (o1.center + o2.center),
           normal := orient (o2.center - o1.center) (rrAxis o1 o2),
           depth := rrPen o1 o2 }
  else
    none

/-- Rotation of a vector by an angle in radians. -/
noncomputable def rotateVec (t : ℝ) (v : Vec2) : Vec2 :=
  ⟨v.x * Real.cos t - v.y * Real.sin t, v.x * Real.sin t + v.y * Real.cos t⟩

/-- Clamp a real to an interval. -/
noncomputable def clampR (lo hi v : ℝ) : ℝ := max lo (min hi v)

/-- The circle centre expressed in the rectangle's local frame. -/
noncomputable def rcLocal (o1 : MCRectShape) (o2 : MCCircleShape) : Vec2 :=
  rotateVec (-o1.rot) (o2.center - o1.center)

/-- The circle centre clamped to the rectangle's half extents (the nearest
point of the rectangle in local coordinates). -/
noncomputable def rcClamped (o1 : MCRectShape) (o2 : MCCircleShape) : Vec2 :=
  ⟨clampR (-o1.hw) o1.hw (rcLocal o1 o2).x, clampR (-o1.hh) o1.hh (rcLocal o1 o2).y⟩

/-- Modelled from the spec: `processRectCircle(object1, object2)`
transforms the circle centre into the rectangle's local frame and clamps
it to the half extents.  When the centre lies inside the rectangle an
explicit deepest-penetration-axis branch picks the local axis with the
smaller distance to the boundary (sign ties resolved deterministically
toward the positive axis); otherwise the distance from the clamped
boundary point to the centre is tested against the radius. -/
noncomputable def processRectCircle (o1 : MCRectShape) (o2 : MCCircleShape) :
    Option Contact :=
  let p := rcLocal o1 o2
  if |p.x| ≤ o1.hw ∧ |p.y| ≤ o1.hh then
    let nLocal : Vec2 :=
      if o1.hw - |p.x| ≤ o1.hh - |p.y| then
        (if 0 ≤ p.x then ⟨1, 0⟩ else ⟨-1, 0⟩)
      else
        (if 0 ≤ p.y then ⟨0, 1⟩ else ⟨0, -1⟩)
    some { point := o2.center,
           normal := rotateVec o1.rot nLocal,
           depth := o2.radius + min (o1.hw - |p.x|) (o1.hh - |p.y|) }
  else
    let q := rcClamped o1 o2
    let dist := vnorm (p - q)
    if dist < o2.radius then
      some { point := o1.center + rotateVec o1.rot q,
             normal := rotateVec o1.rot ((1 / dist) • (p - q)),
             depth := o2.radius - dist }
    else
      none

/-- A shape is a circle or a rectangle: the closed shape-kind set the
dispatcher switches over. -/
inductive MCShape where
  | circle : MCCircleShape → MCShape
  | rect : MCRectShape → MCShape

/-- The centre of a shape. -/
def shapeCenter : MCShape → Vec2
  | .circle c => c.center
  | .rect r => r.center

/-- A contact with the object1/object2 roles exchanged: the normal is
negated, point and depth are unchanged. -/
def flipContact (c : Contact) : Contact :=
  { c with normal := -c.normal }

/-- Modelled from the spec: the dispatcher (`MCContactResolver`) invokes
the pair test matching the two shapes' kinds, normalising a mixed
(circle, rect) pair to the (rect, circle) test and flipping the resulting
contact so that object1 is always the shape passed first. -/
noncomputable def resolvePair : MCShape → MCShape → Option Contact
  | .circle a, .circle b => processCircleCircle a b
  | .rect a, .rect b => processRectRect a b
  | .rect a, .circle b => processRectCircle a b
  | .circle a, .rect b => Option.map flipContact (processRectCircle b a)

/-- A rigid body as the solver sees it: inverse mass (zero models the
static / infinite-mass flag), linear velocity and restitution
coefficient. -/
structure Body where
  invMass : ℝ
  velocity : Vec2
  restitution : ℝ

/-- Modelled from the spec: one velocity-impulse resolution step of the
sequential-impulse solver (steps 1-4 of the solver algorithm).  The
relative velocity along the contact normal is computed; a separating pair
is skipped; otherwise the impulse magnitude uses the combined restitution
(the minimum of the two coefficients, a fixed documented combination
rule) and is applied to both bodies in opposite directions along the
normal, weighted by inverse mass. -/
noncomputable def resolveVelocity (b1 b2 : Body) (n : Vec2) : Body × Body :=
  let relVel := dotV (b2.velocity - b1.velocity) n
  if 0 ≤ relVel then
    (b1, b2)
  else
    let e := min b1.restitution b2.restitution
    let j := -(1 + e) * relVel / (b1.invMass + b2.invMass)
    ({ b1 with velocity := b1.velocity - (j * b1.invMass) • n },
     { b2 with velocity := b2.velocity + (j * b2.invMass) • n })

/-- The plain axis-aligned bounding-box overlap test, written from the
spec's words for the refinement claim about `processRectRect`. -/
def aabbOverlap (o1 o2 : MCRectShape) : Prop :=
  o1.center.x - o1.hw < o2.center.x + o2.hw ∧
  o2.center.x - o2.hw < o1.center.x + o1.hw ∧
  o1.center.y - o1.hh < o2.center.y + o2.hh ∧
  o2.center.y - o2.hh < o1.center.y + o1.hh

/-! ## Component lemmas for `Vec2` -/

@[simp] theorem Vec2.add_x (a b : Vec2) : (a + b).x = a.x + b.x := rfl

@[simp] theorem Vec2.add_y (a b : Vec2) : (a + b).y = a.y + b.y := rfl

@[simp] theorem Vec2.sub_x (a b : Vec2) : (a - b).x = a.x - b.x := rfl

@[simp] theorem Vec2.sub_y (a b : Vec2) : (a - b).y = a.y - b.y := rfl

@[simp] theorem Vec2.neg_x (a : Vec2) : (-a).x = -a.x := rfl

@[simp] theorem Vec2.neg_y (a : Vec2) : (-a).y = -a.y := rfl

@[simp] theorem Vec2.smul_x (c : ℝ) (a : Vec2) : (c • a).x = c * a.x := rfl

@[simp] theorem Vec2.smul_y (c : ℝ) (a : Vec2) : (c • a).y = c * a.y := rfl

@[simp] theorem Vec2.zero_x : (0 : Vec2).x = 0 := rfl

@[simp] theorem Vec2.zero_y : (0 : Vec2).y = 0 := rfl

theorem Vec2.neg_neg' (a : Vec2) : -(-a) = a := by
  ext <;> simp

theorem Vec2.neg_sub' (a b : Vec2) : -(a - b) = b - a := by
  ext <;> simp

/-- Evaluates `vnorm` on a concrete vector from a sum-of-squares
identity. -/
theorem vnorm_eval (x y r : ℝ) (hr : 0 ≤ r) (h : x ^ 2 + y ^ 2 = r ^ 2) :
    vnorm ⟨x, y⟩ = r := by
  unfold vnorm
  rw [show (⟨x, y⟩ : Vec2).x = x from rfl, show (⟨x, y⟩ : Vec2).y = y from rfl,
    h, Real.sqrt_sq hr]

/-! ## Claims about the track loader and the off-track detector -/

/-- C8: `TrackLoader::track(index)` returns `nullptr` (`none`) for every
index at or beyond the number of loaded tracks, and the track stored at
position `index` for every index strictly below it. -/
theorem C8_track_index_bounds (tl : TrackLoader) (index : Nat) :
    (tl.tracks ≤ index → tl.track index = none) ∧
    (∀ h : index < tl.tracks,
      tl.track index = some (tl.m_tracks.get ⟨index, h⟩)) := by
  constructor
  · intro hle
    unfold TrackLoader.track
    rw [dif_neg (Nat.not_lt.mpr hle)]
  · intro h
    unfold TrackLoader.track
    rw [dif_pos h]

/-- Closed instance of C8: a loader with two tracks at index 5 and at
index 1. -/
theorem C8_track_index_bounds_witness :
    (TrackLoader.mk [Track.mk (TrackData.mk 0 false),
      Track.mk (TrackData.mk 7 true)]).track 5 = none ∧
    (TrackLoader.mk [Track.mk (TrackData.mk 0 false),
      Track.mk (TrackData.mk 7 true)]).track 1 =
      some (Track.mk (TrackData.mk 7 true)) := by
  constructor
  · exact (C8_track_index_bounds _ 5).1 (by decide)
  · exact (C8_track_index_bounds _ 1).2 (by decide)

/-- C9: after `TrackLoader::setLockedTracks`, every track of index 0 is
unlocked, and every track of positive index is locked exactly when its
stored unlock status is absent or false. -/
theorem C9_setLockedTracks_locking (settings : Nat → Option Bool)
    (tl : TrackLoader) (t : Track)
    (ht : t ∈ (tl.setLockedTracks settings).m_tracks) :
    (t.trackData.index = 0 → t.trackData.isLocked = false) ∧
    (0 < t.trackData.index →
      (t.trackData.isLocked = true ↔
        (settings t.trackData.index).getD false = false)) := by
  unfold TrackLoader.setLockedTracks at ht
  rcases List.mem_map.mp ht with ⟨t0, -, rfl⟩
  by_cases hc : loadTrackUnlockStatus settings t0 = false ∧ t0.trackData.index > 0
  · rw [if_pos hc]
    refine ⟨fun h0 => absurd h0 ?_, fun _ => ?_⟩
    · have := hc.2
      simp only [Track.setIsLocked] at *
      omega
    · simp only [Track.setIsLocked] at *
      unfold loadTrackUnlockStatus at hc
      simp [hc.1]
  · rw [if_neg hc]
    refine ⟨fun _ => rfl, fun hpos => ?_⟩
    simp only [Track.setIsLocked] at *
    rw [not_and] at hc
    have hstat : ¬ loadTrackUnlockStatus settings t0 = false := fun hf => hc hf hpos
    unfold loadTrackUnlockStatus at hstat
    simp only [Bool.not_eq_false] at hstat
    simp [hstat]

/-- Closed instance of C9: a locked track of index 2 produced by
`setLockedTracks` with an empty settings store. -/
theorem C9_setLockedTracks_locking_witness :
    ((Track.mk (TrackData.mk 2 true)).trackData.index = 0 →
      (Track.mk (TrackData.mk 2 true)).trackData.isLocked = false) ∧
    (0 < (Track.mk (TrackData.mk 2 true)).trackData.index →
      ((Track.mk (TrackData.mk 2 true)).trackData.isLocked = true ↔
        ((fun _ => (none : Option Bool)) (Track.mk (TrackData.mk 2 true)).trackData.index).getD false = false)) :=
  C9_setLockedTracks_locking (fun _ => none)
    (TrackLoader.mk [Track.mk (TrackData.mk 0 false), Track.mk (TrackData.mk 2 false)])
    (Track.mk (TrackData.mk 2 true)) (by decide)

/-- C10: `OffTrackDetector::isOffTrack` returns true on every tile
without asphalt, for every tire position, and on such a tile the result
does not depend on the tire position at all: the position-dependent limit
checks only run for tiles that have asphalt. -/
theorem C10_isOffTrack_no_asphalt (rv : Vec2Q → Int → Vec2Q)
    (d : OffTrackDetector) (tire : Vec2Q) (tile : TrackTile)
    (h : tile.hasAsphalt = false) :
    d.isOffTrack rv tire tile = true ∧
    ∀ tire2, d.isOffTrack rv tire2 tile = d.isOffTrack rv tire tile := by
  constructor
  · simp [OffTrackDetector.isOffTrack, h]
  · intro tire2
    simp [OffTrackDetector.isOffTrack, h]

/-- Closed instance of C10: a grass tile without asphalt. -/
theorem C10_isOffTrack_no_asphalt_witness :
    (OffTrackDetector.mk 40 40).isOffTrack (fun v _ => v) (Vec2Q.mk 3 4)
      (TrackTile.mk false TileType.TT_GRASS 90 (Vec2Q.mk 0 0)) = true ∧
    ∀ tire2, (OffTrackDetector.mk 40 40).isOffTrack (fun v _ => v) tire2
      (TrackTile.mk false TileType.TT_GRASS 90 (Vec2Q.mk 0 0)) =
      (OffTrackDetector.mk 40 40).isOffTrack (fun v _ => v) (Vec2Q.mk 3 4)
        (TrackTile.mk false TileType.TT_GRASS 90 (Vec2Q.mk 0 0)) :=
  C10_isOffTrack_no_asphalt (fun v _ => v) (OffTrackDetector.mk 40 40)
    (Vec2Q.mk 3 4) (TrackTile.mk false TileType.TT_GRASS 90 (Vec2Q.mk 0 0)) rfl

/-! ## Claims about the contact resolver and the solver -/

/-- C7: a static (infinite-mass, zero inverse mass) body in contact with
another body keeps its velocity unchanged through velocity resolution:
the impulse is weighted by inverse mass, so a zero inverse mass receives
zero velocity change. -/
theorem C7_static_velocity_unchanged (b1 b2 : Body) (n : Vec2) :
    (b1.invMass = 0 → (resolveVelocity b1 b2 n).1.velocity = b1.velocity) ∧
    (b2.invMass = 0 → (resolveVelocity b1 b2 n).2.velocity = b2.velocity) := by
  constructor
  · intro h1
    unfold resolveVelocity
    dsimp only
    split
    · rfl
    · ext <;> simp [h1]
  · intro h2
    unfold resolveVelocity
    dsimp only
    split
    · rfl
    · ext <;> simp [h2]

/-- Closed instance of C7: a static wall hit by a moving body. -/
theorem C7_static_velocity_unchanged_witness :
    (resolveVelocity (Body.mk 0 (Vec2.mk 0 0) 0) (Body.mk 0 (Vec2.mk (-1) 0) 1)
      (Vec2.mk 1 0)).1.velocity = (Body.mk 0 (Vec2.mk 0 0) 0).velocity ∧
    (resolveVelocity (Body.mk 0 (Vec2.mk 0 0) 0) (Body.mk 0 (Vec2.mk (-1) 0) 1)
      (Vec2.mk 1 0)).2.velocity = (Body.mk 0 (Vec2.mk (-1) 0) 1).velocity :=
  ⟨(C7_static_velocity_unchanged _ _ _).1 rfl,
   (C7_static_velocity_unchanged _ _ _).2 rfl⟩

/-- C1: circles whose centre distance is at least the sum of the radii
produce no contact from `processCircleCircle`; the embedding is a pure
function of the two shapes, so neither shape nor any body state is
touched. -/
theorem C1_circleCircle_separated (o1 o2 : MCCircleShape)
    (h : o1.radius + o2.radius ≤ vnorm (o2.center - o1.center)) :
    processCircleCircle o1 o2 = none := by
  unfold processCircleCircle
  rw [if_pos h]

/-- Closed instance of C1: unit circles five units apart. -/
theorem C1_circleCircle_separated_witness :
    processCircleCircle (MCCircleShape.mk (Vec2.mk 0 0) 1)
      (MCCircleShape.mk (Vec2.mk 5 0) 1) = none := by
  apply C1_circleCircle_separated
  have h5 : (MCCircleShape.mk (Vec2.mk 5 0) 1).center -
      (MCCircleShape.mk (Vec2.mk 0 0) 1).center = Vec2.mk 5 0 := by
    ext <;> simp
  rw [h5, vnorm_eval 5 0 5 (by norm_num) (by norm_num)]
  norm_num

/-- C2: circles whose centre distance is strictly below the sum of the
radii produce a contact whose penetration depth is the sum of radii minus
the distance and whose normal is a unit vector; whenever the centres are
distinct (so that the centre-to-centre direction exists) the normal is
exactly the normalised centre-to-centre vector. -/
theorem C2_circleCircle_overlap (o1 o2 : MCCircleShape)
    (h : vnorm (o2.center - o1.center) < o1.radius + o2.radius) :
    ∃ c, processCircleCircle o1 o2 = some c ∧
      c.depth = o1.radius + o2.radius - vnorm (o2.center - o1.center) ∧
      vnorm c.normal = 1 ∧
      (o1.center ≠ o2.center →
        c.normal = (1 / vnorm (o2.center - o1.center)) • (o2.center - o1.center)) := by
  unfold processCircleCircle
  rw [if_neg (not_le.mpr h)]
  by_cases hd : vnorm (o2.center - o1.center) = 0
  · rw [if_pos hd]
    refine ⟨_, rfl, rfl, ?_, ?_⟩
    · exact vnorm_eval 1 0 1 (by norm_num) (by norm_num)
    · intro hne
      exfalso
      apply hne
      have h0 : o2.center - o1.center = 0 := (vnorm_eq_zero_iff _).mp hd
      have hx := congrArg Vec2.x h0
      have hy := congrArg Vec2.y h0
      simp only [Vec2.sub_x, Vec2.sub_y, Vec2.zero_x, Vec2.zero_y, sub_eq_zero] at hx hy
      ext
      · exact hx.symm
      · exact hy.symm
  · rw [if_neg hd]
    exact ⟨_, rfl, rfl, vnorm_smul_self _ hd, fun _ => rfl⟩

/-- Closed instance of C2: circles of radius 2 with centres three units
apart; the contact has depth 1 and unit normal `(1, 0)`. -/
theorem C2_circleCircle_overlap_witness :
    ∃ c, processCircleCircle (MCCircleShape.mk (Vec2.mk 0 0) 2)
        (MCCircleShape.mk (Vec2.mk 3 0) 2) = some c ∧
      c.depth = (2 : ℝ) + 2 - vnorm ((MCCircleShape.mk (Vec2.mk 3 0) 2).center -
        (MCCircleShape.mk (Vec2.mk 0 0) 2).center) ∧
      vnorm c.normal = 1 ∧
      ((MCCircleShape.mk (Vec2.mk 0 0) 2).center ≠ (MCCircleShape.mk (Vec2.mk 3 0) 2).center →
        c.normal = (1 / vnorm ((MCCircleShape.mk (Vec2.mk 3 0) 2).center -
          (MCCircleShape.mk (Vec2.mk 0 0) 2).center)) •
          ((MCCircleShape.mk (Vec2.mk 3 0) 2).center - (MCCircleShape.mk (Vec2.mk 0 0) 2).center)) := by
  apply C2_circleCircle_overlap
  have h3 : (MCCircleShape.mk (Vec2.mk 3 0) 2).center -
      (MCCircleShape.mk (Vec2.mk 0 0) 2).center = Vec2.mk 3 0 := by
    ext <;> simp
  rw [h3, vnorm_eval 3 0 3 (by norm_num) (by norm_num)]
  norm_num

theorem rrAxes_unrotated (o1 o2 : MCRectShape) (h1 : o1.rot = 0) (h2 : o2.rot = 0) :
    rrAxes o1 o2 = (⟨1, 0⟩, ⟨0, 1⟩, ⟨1, 0⟩, ⟨0, 1⟩) := by
  unfold rrAxes canonicalPair
  split <;> simp [rectAxis1, rectAxis2, h1, h2]

theorem processRectRect_isSome_iff (o1 o2 : MCRectShape) :
    (processRectRect o1 o2).isSome ↔ 0 < rrPen o1 o2 := by
  unfold processRectRect
  split <;> simp [*]

/-- C3: for axis-aligned (zero-rotation) rectangles, `processRectRect`
reports a contact exactly when the plain axis-aligned bounding-box
overlap test reports overlap. -/
theorem C3_rectRect_matches_aabb (o1 o2 : MCRectShape)
    (h1 : o1.rot = 0) (h2 : o2.rot = 0) :
    (processRectRect o1 o2).isSome ↔ aabbOverlap o1 o2 := by
  have hpen : rrPen o1 o2 =
      min (o1.hw + o2.hw - |o2.center.x - o1.center.x|)
        (o1.hh + o2.hh - |o2.center.y - o1.center.y|) := by
    unfold rrPen
    rw [rrAxes_unrotated o1 o2 h1 h2]
    dsimp only
    unfold rrDepth projR dotV
    simp [rectAxis1, rectAxis2, h1, h2]
  rw [processRectRect_isSome_iff, hpen, lt_min_iff]
  unfold aabbOverlap
  constructor
  · rintro ⟨hx, hy⟩
    obtain ⟨hx1, hx2⟩ := abs_lt.mp (sub_pos.mp hx)
    obtain ⟨hy1, hy2⟩ := abs_lt.mp (sub_pos.mp hy)
    exact ⟨by linarith, by linarith, by linarith, by linarith⟩
  · rintro ⟨a1, a2, a3, a4⟩
    constructor
    · exact sub_pos.mpr (abs_lt.mpr ⟨by linarith, by linarith⟩)
    · exact sub_pos.mpr (abs_lt.mpr ⟨by linarith, by linarith⟩)

/-- Closed instance of C3: two unit half-extent squares one unit apart
horizontally. -/
theorem C3_rectRect_matches_aabb_witness :
    ((processRectRect (MCRectShape.mk (Vec2.mk 0 0) 1 1 0)
      (MCRectShape.mk (Vec2.mk 1 0) 1 1 0)).isSome ↔
      aabbOverlap (MCRectShape.mk (Vec2.mk 0 0) 1 1 0)
        (MCRectShape.mk (Vec2.mk 1 0) 1 1 0)) :=
  C3_rectRect_matches_aabb (MCRectShape.mk (Vec2.mk 0 0) 1 1 0)
    (MCRectShape.mk (Vec2.mk 1 0) 1 1 0) rfl rfl

theorem Vec2.sub_eq_zero_iff' (a b : Vec2) : a - b = 0 ↔ a = b := by
  constructor
  · intro h
    have hx := congrArg Vec2.x h
    have hy := congrArg Vec2.y h
    simp only [Vec2.sub_x, Vec2.sub_y, Vec2.zero_x, Vec2.zero_y, sub_eq_zero] at hx hy
    ext <;> assumption
  · intro h
    rw [h]
    ext <;> simp

theorem dotV_neg_left (a b : Vec2) : dotV (-a) b = -(dotV a b) := by
  unfold dotV
  simp
  ring

theorem processCircleCircle_swap (a b : MCCircleShape) :
    Option.map Contact.depth (processCircleCircle b a) =
      Option.map Contact.depth (processCircleCircle a b) ∧
    (a.center ≠ b.center →
      Option.map Contact.normal (processCircleCircle b a) =
        Option.map (fun n => -n)
          (Option.map Contact.normal (processCircleCircle a b))) := by
  have hsub : a.center - b.center = -(b.center - a.center) :=
    (Vec2.neg_sub' _ _).symm
  have hn : vnorm (a.center - b.center) = vnorm (b.center - a.center) := by
    rw [hsub, vnorm_neg]
  unfold processCircleCircle
  dsimp only
  rw [hn, add_comm b.radius a.radius]
  by_cases hc : a.radius + b.radius ≤ vnorm (b.center - a.center)
  · rw [if_pos hc, if_pos hc]
    exact ⟨rfl, fun _ => rfl⟩
  · rw [if_neg hc, if_neg hc]
    constructor
    · rfl
    · intro hne
      have hd : vnorm (b.center - a.center) ≠ 0 := by
        intro h0
        exact hne ((Vec2.sub_eq_zero_iff' _ _).mp ((vnorm_eq_zero_iff _).mp h0)).symm
      rw [if_neg hd, if_neg hd]
      simp only [Option.map_some']
      congr 1
      rw [hsub]
      ext <;> simp <;> ring

theorem rrDepth_swap (o1 o2 : MCRectShape) (ax : Vec2) :
    rrDepth o2 o1 ax = rrDepth o1 o2 ax := by
  unfold rrDepth
  rw [show o1.center - o2.center = -(o2.center - o1.center) from
    (Vec2.neg_sub' _ _).symm, dotV_neg_left, abs_neg,
    add_comm (projR o2 ax) (projR o1 ax)]

theorem rrAxes_swap (o1 o2 : MCRectShape) : rrAxes o2 o1 = rrAxes o1 o2 := by
  unfold rrAxes
  rw [canonicalPair_comm]

theorem rrPen_swap (o1 o2 : MCRectShape) : rrPen o2 o1 = rrPen o1 o2 := by
  unfold rrPen
  rw [rrAxes_swap]
  simp only [rrDepth_swap]

theorem rrAxis_swap (o1 o2 : MCRectShape) : rrAxis o2 o1 = rrAxis o1 o2 := by
  unfold rrAxis
  rw [rrAxes_swap, funext fun ax => rrDepth_swap o1 o2 ax]

theorem orient_neg (d a : Vec2) (hd : ¬(d.x = 0 ∧ d.y = 0)) :
    orient (-d) a = -(orient d a) := by
  unfold orient
  rw [dotV_neg_left]
  rcases lt_trichotomy (dotV d a) 0 with h | h | h
  · rw [if_pos (by linarith : (0 : ℝ) < -dotV d a),
      if_neg (by linarith : ¬ (0 : ℝ) < dotV d a), if_pos h, Vec2.neg_neg']
  · rw [h, neg_zero, if_neg (lt_irrefl (0 : ℝ)), if_neg (lt_irrefl (0 : ℝ)),
      if_neg (lt_irrefl (0 : ℝ)), if_neg (lt_irrefl (0 : ℝ)),
      if_neg (fun hz : (-d).x = 0 ∧ (-d).y = 0 => hd
        ⟨neg_eq_zero.mp (by simpa using hz.1), neg_eq_zero.mp (by simpa using hz.2)⟩),
      if_neg hd]
    rcases lt_trichotomy d.x 0 with hx | hx | hx
    · rw [if_pos (Or.inl (by simpa using (by linarith : (0 : ℝ) < -d.x))),
        if_neg ?_, Vec2.neg_neg']
      rintro (h' | ⟨h1', h2'⟩) <;> linarith
    · rcases lt_trichotomy d.y 0 with hy | hy | hy
      · rw [if_pos (Or.inr ⟨by simpa using hx, by simpa using (by linarith : (0 : ℝ) < -d.y)⟩),
          if_neg ?_, Vec2.neg_neg']
        rintro (h' | ⟨h1', h2'⟩) <;> linarith
      · exact absurd ⟨hx, hy⟩ hd
      · rw [if_neg ?_, if_pos (Or.inr ⟨hx, hy⟩)]
        rintro (h' | ⟨h1', h2'⟩)
        · simp only [Vec2.neg_x] at h'
          linarith
        · simp only [Vec2.neg_y] at h2'
          linarith
    · rw [if_neg ?_, if_pos (Or.inl hx)]
      rintro (h' | ⟨h1', h2'⟩)
      · simp only [Vec2.neg_x] at h'
        linarith
      · simp only [Vec2.neg_x] at h1'
        linarith
  · rw [if_neg (by linarith : ¬ (0 : ℝ) < -dotV d a),
      if_pos (by linarith : -dotV d a < 0), if_pos h]

theorem processRectRect_swap (o1 o2 : MCRectShape) :
    Option.map Contact.depth (processRectRect o2 o1) =
      Option.map Contact.depth (processRectRect o1 o2) ∧
    (o1.center ≠ o2.center →
      Option.map Contact.normal (processRectRect o2 o1) =
        Option.map (fun n => -n)
          (Option.map Contact.normal (processRectRect o1 o2))) := by
  unfold processRectRect
  rw [rrPen_swap, rrAxis_swap]
  by_cases hp : 0 < rrPen o1 o2
  · rw [if_pos hp, if_pos hp]
    constructor
    · rfl
    · intro hne
      simp only [Option.map_some']
      congr 1
      have hdne : ¬((o2.center - o1.center).x = 0 ∧ (o2.center - o1.center).y = 0) := by
        rintro ⟨hx, hy⟩
        apply hne
        have hz : o2.center - o1.center = 0 := by
          ext
          · simpa using hx
          · simpa using hy
        exact ((Vec2.sub_eq_zero_iff' _ _).mp hz).symm
      rw [show o1.center - o2.center = -(o2.center - o1.center) from
        (Vec2.neg_sub' _ _).symm]
      exact orient_neg _ _ hdne
  · rw [if_neg hp, if_neg hp]
    exact ⟨rfl, fun _ => rfl⟩

/-- Counterexample to C4 as stated: two circles with exactly coincident
centres.  Both argument orders return the deterministic fixed fallback
normal `(1, 0)`, which is not the negation of itself, so swapping the
arguments does not negate the contact normal at this input. -/
theorem C4_swap_counterexample :
    Option.map Contact.normal (resolvePair
      (MCShape.circle (MCCircleShape.mk (Vec2.mk 0 0) 2))
      (MCShape.circle (MCCircleShape.mk (Vec2.mk 0 0) 1))) = some (Vec2.mk 1 0) ∧
    Option.map Contact.normal (resolvePair
      (MCShape.circle (MCCircleShape.mk (Vec2.mk 0 0) 1))
      (MCShape.circle (MCCircleShape.mk (Vec2.mk 0 0) 2))) = some (Vec2.mk 1 0) ∧
    Vec2.mk 1 0 ≠ -(Vec2.mk 1 0) := by
  have hz : ∀ r1 r2 : ℝ, (MCCircleShape.mk (Vec2.mk 0 0) r1).center -
      (MCCircleShape.mk (Vec2.mk 0 0) r2).center = Vec2.mk 0 0 := by
    intro r1 r2
    ext <;> simp
  have h0 : vnorm (Vec2.mk 0 0) = 0 := vnorm_eval 0 0 0 le_rfl (by norm_num)
  refine ⟨?_, ?_, ?_⟩
  · show Option.map Contact.normal (processCircleCircle
      (MCCircleShape.mk (Vec2.mk 0 0) 2) (MCCircleShape.mk (Vec2.mk 0 0) 1)) = _
    unfold processCircleCircle
    dsimp only
    rw [hz 1 2, h0, if_neg (by norm_num), if_pos rfl]
    rfl
  · show Option.map Contact.normal (processCircleCircle
      (MCCircleShape.mk (Vec2.mk 0 0) 1) (MCCircleShape.mk (Vec2.mk 0 0) 2)) = _
    unfold processCircleCircle
    dsimp only
    rw [hz 2 1, h0, if_neg (by norm_num), if_pos rfl]
    rfl
  · intro hcon
    have hx := congrArg Vec2.x hcon
    simp only [Vec2.neg_x] at hx
    norm_num at hx

/-- C4 (amended): swapping the order of the two arguments of any pair
test yields an identical penetration depth always, and a contact normal
that is the exact negation of the original whenever the two shapes'
centres do not exactly coincide; with coincident centres the degenerate
fixed-axis fallback normal is returned for both orders, so the negation
clause excludes exactly that case. -/
theorem C4_swap_symmetry (s1 s2 : MCShape) :
    Option.map Contact.depth (resolvePair s2 s1) =
      Option.map Contact.depth (resolvePair s1 s2) ∧
    (shapeCenter s1 ≠ shapeCenter s2 →
      Option.map Contact.normal (resolvePair s2 s1) =
        Option.map (fun n => -n)
          (Option.map Contact.normal (resolvePair s1 s2))) := by
  cases s1 with
  | circle a =>
    cases s2 with
    | circle b => exact processCircleCircle_swap a b
    | rect b =>
      constructor
      · show Option.map Contact.depth (processRectCircle b a) =
          Option.map Contact.depth (Option.map flipContact (processRectCircle b a))
        cases processRectCircle b a <;> rfl
      · intro _
        show Option.map Contact.normal (processRectCircle b a) =
          Option.map (fun n => -n) (Option.map Contact.normal
            (Option.map flipContact (processRectCircle b a)))
        cases processRectCircle b a with
        | none => rfl
        | some c =>
          simp only [Option.map_some']
          congr 1
          exact (Vec2.neg_neg' c.normal).symm
  | rect a =>
    cases s2 with
    | circle b =>
      constructor
      · show Option.map Contact.depth (Option.map flipContact (processRectCircle a b)) =
          Option.map Contact.depth (processRectCircle a b)
        cases processRectCircle a b <;> rfl
      · intro _
        show Option.map Contact.normal (Option.map flipContact (processRectCircle a b)) =
          Option.map (fun n => -n) (Option.map Contact.normal (processRectCircle a b))
        cases processRectCircle a b <;> rfl
    | rect b => exact processRectRect_swap a b

/-- Closed instance of the amended C4: the two overlapping circles of the
C2 witness, with distinct centres. -/
theorem C4_swap_symmetry_witness :
    (Option.map Contact.depth (resolvePair
        (MCShape.circle (MCCircleShape.mk (Vec2.mk 3 0) 2))
        (MCShape.circle (MCCircleShape.mk (Vec2.mk 0 0) 2))) =
      Option.map Contact.depth (resolvePair
        (MCShape.circle (MCCircleShape.mk (Vec2.mk 0 0) 2))
        (MCShape.circle (MCCircleShape.mk (Vec2.mk 3 0) 2)))) ∧
    (Option.map Contact.normal (resolvePair
        (MCShape.circle (MCCircleShape.mk (Vec2.mk 3 0) 2))
        (MCShape.circle (MCCircleShape.mk (Vec2.mk 0 0) 2))) =
      Option.map (fun n => -n) (Option.map Contact.normal (resolvePair
        (MCShape.circle (MCCircleShape.mk (Vec2.mk 0 0) 2))
        (MCShape.circle (MCCircleShape.mk (Vec2.mk 3 0) 2))))) := by
  have h := C4_swap_symmetry (MCShape.circle (MCCircleShape.mk (Vec2.mk 0 0) 2))
    (MCShape.circle (MCCircleShape.mk (Vec2.mk 3 0) 2))
  refine ⟨h.1, h.2 ?_⟩
  intro hcon
  have hx := congrArg Vec2.x hcon
  show False
  norm_num [shapeCenter] at hx

theorem vnorm_rotateVec (t : ℝ) (v : Vec2) :
    vnorm (rotateVec t v) = vnorm v := by
  unfold vnorm rotateVec
  congr 1
  have hsc := Real.sin_sq_add_cos_sq t
  show (v.x * Real.cos t - v.y * Real.sin t) ^ 2 +
      (v.x * Real.sin t + v.y * Real.cos t) ^ 2 = v.x ^ 2 + v.y ^ 2
  nlinarith [hsc]

/-- C5: `processRectCircle` reports no contact when the circle centre is
outside the rectangle with its distance to the rectangle's nearest
(clamped) point at least the radius, and a contact of depth at least
`min hw hh` when the circle centre coincides with the rectangle centre,
through the explicit deepest-penetration-axis branch for a centre inside
the rectangle. -/
theorem C5_rectCircle_far_and_center (o1 : MCRectShape) (o2 : MCCircleShape) :
    (¬(|(rcLocal o1 o2).x| ≤ o1.hw ∧ |(rcLocal o1 o2).y| ≤ o1.hh) →
      o2.radius ≤ vnorm (rcLocal o1 o2 - rcClamped o1 o2) →
      processRectCircle o1 o2 = none) ∧
    (o2.center = o1.center → 0 ≤ o1.hw → 0 ≤ o1.hh → 0 ≤ o2.radius →
      ∃ c, processRectCircle o1 o2 = some c ∧ min o1.hw o1.hh ≤ c.depth) := by
  constructor
  · intro hout hfar
    unfold processRectCircle
    dsimp only
    rw [if_neg hout, if_neg (not_lt.mpr hfar)]
  · intro hc h0w h0h h0r
    have hp : rcLocal o1 o2 = Vec2.mk 0 0 := by
      unfold rcLocal rotateVec
      rw [hc]
      ext <;> simp
    unfold processRectCircle
    dsimp only
    rw [hp]
    rw [if_pos (by constructor <;> simpa using by assumption)]
    refine ⟨_, rfl, ?_⟩
    show min o1.hw o1.hh ≤ o2.radius +
      min (o1.hw - |(Vec2.mk 0 0).x|) (o1.hh - |(Vec2.mk 0 0).y|)
    simp only [show (Vec2.mk 0 0).x = 0 from rfl, show (Vec2.mk 0 0).y = 0 from rfl,
      abs_zero, sub_zero]
    linarith

/-- Closed instance of C5: a unit square with a far circle (no contact)
and with a concentric circle (deep contact). -/
theorem C5_rectCircle_far_and_center_witness :
    processRectCircle (MCRectShape.mk (Vec2.mk 0 0) 1 1 0)
      (MCCircleShape.mk (Vec2.mk 5 0) 1) = none ∧
    (∃ c, processRectCircle (MCRectShape.mk (Vec2.mk 0 0) 1 1 0)
      (MCCircleShape.mk (Vec2.mk 0 0) 1) = some c ∧
      min (1 : ℝ) 1 ≤ c.depth) := by
  have hp : rcLocal (MCRectShape.mk (Vec2.mk 0 0) 1 1 0)
      (MCCircleShape.mk (Vec2.mk 5 0) 1) = Vec2.mk 5 0 := by
    unfold rcLocal rotateVec
    ext <;> simp
  have hq : rcClamped (MCRectShape.mk (Vec2.mk 0 0) 1 1 0)
      (MCCircleShape.mk (Vec2.mk 5 0) 1) = Vec2.mk 1 0 := by
    unfold rcClamped clampR
    rw [hp]
    ext
    · show max (-(1 : ℝ)) (min 1 (Vec2.mk 5 0).x) = 1
      norm_num
    · show max (-(1 : ℝ)) (min 1 (Vec2.mk 5 0).y) = 0
      norm_num
  constructor
  · apply (C5_rectCircle_far_and_center _ _).1
    · rw [hp]
      intro hcon
      have := hcon.1
      norm_num at this
    · rw [hp, hq, show Vec2.mk 5 0 - Vec2.mk 1 0 = Vec2.mk 4 0 from by ext <;> norm_num,
        vnorm_eval 4 0 4 (by norm_num) (by norm_num)]
      norm_num
  · exact (C5_rectCircle_far_and_center _ _).2 (by ext <;> norm_num)
      (by norm_num) (by norm_num) (by norm_num)

theorem processRectCircle_coincident (a : MCRectShape) (b : MCCircleShape)
    (h : b.center = a.center) :
    processRectCircle a b = none ∨
    ∃ c, processRectCircle a b = some c ∧ vnorm c.normal = 1 := by
  have hp : rcLocal a b = Vec2.mk 0 0 := by
    unfold rcLocal rotateVec
    rw [h]
    ext <;> simp
  unfold processRectCircle
  dsimp only
  rw [hp]
  by_cases hin : |(Vec2.mk 0 0).x| ≤ a.hw ∧ |(Vec2.mk 0 0).y| ≤ a.hh
  · right
    rw [if_pos hin]
    refine ⟨_, rfl, ?_⟩
    rw [vnorm_rotateVec]
    split_ifs <;>
      [exact vnorm_eval 1 0 1 (by norm_num) (by norm_num);
       exact vnorm_eval (-1) 0 1 (by norm_num) (by norm_num);
       exact vnorm_eval 0 1 1 (by norm_num) (by norm_num);
       exact vnorm_eval 0 (-1) 1 (by norm_num) (by norm_num)]
  · rw [if_neg hin]
    by_cases hdist : vnorm (Vec2.mk 0 0 - rcClamped a b) < b.radius
    · right
      rw [if_pos hdist]
      refine ⟨_, rfl, ?_⟩
      rw [vnorm_rotateVec]
      apply vnorm_smul_self
      intro h0
      have hq0 : Vec2.mk 0 0 - rcClamped a b = 0 := (vnorm_eq_zero_iff _).mp h0
      have hqx : (rcClamped a b).x = 0 := by
        have := congrArg Vec2.x hq0
        simp only [Vec2.sub_x, Vec2.zero_x] at this
        linarith
      have hqy : (rcClamped a b).y = 0 := by
        have := congrArg Vec2.y hq0
        simp only [Vec2.sub_y, Vec2.zero_y] at this
        linarith
      have hin' : ¬(0 ≤ a.hw ∧ 0 ≤ a.hh) := by
        intro hcon
        exact hin ⟨by simpa using hcon.1, by simpa using hcon.2⟩
      unfold rcClamped clampR at hqx hqy
      rw [hp] at hqx hqy
      rw [not_and_or, not_le, not_le] at hin'
      rcases hin' with hw0 | hh0
      · have hx00 : (Vec2.mk 0 0).x = 0 := rfl
        rw [hx00, min_eq_left (le_of_lt hw0),
          max_eq_left (by linarith : a.hw ≤ -a.hw)] at hqx
        dsimp only at hqx
        linarith
      · have hy00 : (Vec2.mk 0 0).y = 0 := rfl
        rw [hy00, min_eq_left (le_of_lt hh0),
          max_eq_left (by linarith : a.hh ≤ -a.hh)] at hqy
        dsimp only at hqy
        linarith
    · left
      rw [if_neg hdist]

/-- C6: for degenerate narrow-phase inputs the pair tests resolve to a
deterministic, well-formed result rather than failing: with exactly
coincident centres every dispatch returns either no contact or a contact
with a unit-length normal (the fixed-axis fallback), and a pair of
zero-size circles reports no contact; every test is a total function, so
no input can abort the step. -/
theorem C6_degenerate_fallback (s1 s2 : MCShape) :
    (shapeCenter s1 = shapeCenter s2 →
      resolvePair s1 s2 = none ∨
      ∃ c, resolvePair s1 s2 = some c ∧ vnorm c.normal = 1) ∧
    (∀ a b : MCCircleShape, s1 = MCShape.circle a → s2 = MCShape.circle b →
      a.radius = 0 → b.radius = 0 → resolvePair s1 s2 = none) := by
  constructor
  · intro h
    cases s1 with
    | circle a =>
      cases s2 with
      | circle b =>
        show processCircleCircle a b = none ∨
          ∃ c, processCircleCircle a b = some c ∧ vnorm c.normal = 1
        have hsub : b.center - a.center = 0 :=
          (Vec2.sub_eq_zero_iff' _ _).mpr (show b.center = a.center from h.symm)
        have hd : vnorm (b.center - a.center) = 0 := by
          rw [hsub]
          exact (vnorm_eq_zero_iff 0).mpr rfl
        unfold processCircleCircle
        dsimp only
        rw [hd]
        by_cases hr : a.radius + b.radius ≤ 0
        · left
          rw [if_pos hr]
        · right
          rw [if_neg hr, if_pos rfl]
          exact ⟨_, rfl, vnorm_eval 1 0 1 (by norm_num) (by norm_num)⟩
      | rect b =>
        show Option.map flipContact (processRectCircle b a) = none ∨
          ∃ c, Option.map flipContact (processRectCircle b a) = some c ∧
            vnorm c.normal = 1
        rcases processRectCircle_coincident b a (show a.center = b.center from h) with
          hnone | ⟨c, hc, hu⟩
        · left
          rw [hnone]
          rfl
        · right
          refine ⟨flipContact c, by rw [hc]; rfl, ?_⟩
          show vnorm (-c.normal) = 1
          rw [vnorm_neg, hu]
    | rect a =>
      cases s2 with
      | circle b =>
        exact processRectCircle_coincident a b (show b.center = a.center from h.symm)
      | rect b =>
        show processRectRect a b = none ∨
          ∃ c, processRectRect a b = some c ∧ vnorm c.normal = 1
        unfold processRectRect
        by_cases hpen : 0 < rrPen a b
        · right
          rw [if_pos hpen]
          refine ⟨_, rfl, ?_⟩
          have hd0 : b.center - a.center = 0 :=
            (Vec2.sub_eq_zero_iff' _ _).mpr (show b.center = a.center from h.symm)
          rw [hd0]
          unfold orient
          rw [show dotV 0 (rrAxis a b) = 0 from by unfold dotV; simp,
            if_neg (lt_irrefl (0 : ℝ)), if_neg (lt_irrefl (0 : ℝ)),
            if_pos ⟨Vec2.zero_x, Vec2.zero_y⟩]
          exact vnorm_eval 1 0 1 (by norm_num) (by norm_num)
        · left
          rw [if_neg hpen]
  · rintro a b rfl rfl ha hb
    show processCircleCircle a b = none
    unfold processCircleCircle
    dsimp only
    rw [if_pos (by rw [ha, hb]; simpa using vnorm_nonneg (b.center - a.center))]

/-- Closed instance of C6: two zero-radius circles at the same point. -/
theorem C6_degenerate_fallback_witness :
    (resolvePair (MCShape.circle (MCCircleShape.mk (Vec2.mk 0 0) 0))
        (MCShape.circle (MCCircleShape.mk (Vec2.mk 0 0) 0)) = none ∨
      ∃ c, resolvePair (MCShape.circle (MCCircleShape.mk (Vec2.mk 0 0) 0))
        (MCShape.circle (MCCircleShape.mk (Vec2.mk 0 0) 0)) = some c ∧
        vnorm c.normal = 1) ∧
    resolvePair (MCShape.circle (MCCircleShape.mk (Vec2.mk 0 0) 0))
      (MCShape.circle (MCCircleShape.mk (Vec2.mk 0 0) 0)) = none :=
  ⟨(C6_degenerate_fallback _ _).1 rfl,
   (C6_degenerate_fallback _ _).2 _ _ rfl rfl rfl rfl⟩
